import Mathlib

/-!
Shallow embedding of the contact-manager program (`src/main.py`) and proofs
about its phone validation, birthday parsing, record operations, directory
operations and the upcoming-birthday scheduler.

Conventions of the embedding:
* Python strings are Lean `String`s; character-level reasoning uses `s.data`.
* `str.isdigit` is modelled as "non-empty and every character a decimal digit"
  (the character classes exercised by this program are the decimal digits).
* A raised exception is modelled by an error value (`Except.error` /
  `Option.none` / a `some msg` component, as noted at each definition).
* `datetime` values are calendar dates plus seconds past midnight; dates use
  the proleptic Gregorian calendar exactly as CPython's `datetime` does
  (`toordinal`, `weekday()` with Monday = 0, `timedelta` day arithmetic with
  floor division).
-/

namespace HW

/-! ## Phone validation (`Phone.__init__`, src/main.py lines 41-47) -/

/-- Models `str.isdigit`: true iff the string is non-empty and every
character is a decimal digit. -/
def pyIsdigit (s : String) : Bool := !s.data.isEmpty && s.data.all Char.isDigit

/-- Message of `CheckPhoneNumber(f'Phone {value} is not digit')`. -/
def phoneNotDigitMsg (value : String) : String := "Phone " ++ value ++ " is not digit"

/-- Message of `CheckPhoneNumber(f'Phone {value} > 10 digits')`. -/
def phoneWrongLenMsg (value : String) : String := "Phone " ++ value ++ " > 10 digits"

/-- Models `Phone.__init__`: `Except.error msg` models a raised
`CheckPhoneNumber(msg)`, `Except.ok` the successfully stored value. -/
def makePhone (value : String) : Except String String :=
  if !(pyIsdigit value) then Except.error (phoneNotDigitMsg value)
  else if value.length ≠ 10 then Except.error (phoneWrongLenMsg value)
  else Except.ok value

/-! ## Calendar dates (CPython `datetime.date` semantics) -/

/-- Gregorian leap-year test, as used by `datetime`. -/
def isLeap (y : Nat) : Bool := y % 4 == 0 && (y % 100 != 0 || y % 400 == 0)

/-- Number of days in month `m` of year `y` (months are 1-12). -/
def daysInMonth (y m : Nat) : Nat :=
  if m = 2 then (if isLeap y then 29 else 28)
  else if m = 4 ∨ m = 6 ∨ m = 9 ∨ m = 11 then 30
  else 31

/-- A calendar date, the payload of a Python `date`/`datetime` (time apart). -/
structure Date where
  year : Nat
  month : Nat
  day : Nat
deriving DecidableEq

/-- Validity of a date, as enforced by the `datetime` constructor
(year at least `MINYEAR = 1`, month 1-12, day within the month). -/
def Date.valid (d : Date) : Bool :=
  decide (1 ≤ d.year ∧ 1 ≤ d.month ∧ d.month ≤ 12 ∧ 1 ≤ d.day ∧
    d.day ≤ daysInMonth d.year d.month)

/-- Days in year `y` strictly before month `m` (the cumulative month
lengths used by `toordinal`). -/
def daysBeforeMonth (y m : Nat) : Nat :=
  ((List.range (m - 1)).map (fun i => daysInMonth y (i + 1))).sum

/-- Models `date.toordinal()`: day number with 0001-01-01 as day 1. -/
def Date.toOrdinal (d : Date) : Nat :=
  365 * (d.year - 1) + (d.year - 1) / 4 - (d.year - 1) / 100 + (d.year - 1) / 400
    + daysBeforeMonth d.year d.month + d.day

/-- Models `date.weekday()`: Monday = 0 .. Sunday = 6
(0001-01-01 is a Monday). -/
def Date.weekday (d : Date) : Nat := (d.toOrdinal + 6) % 7

/-- The next calendar day (rolls over months and years). -/
def Date.succDay (d : Date) : Date :=
  if d.day < daysInMonth d.year d.month then ⟨d.year, d.month, d.day + 1⟩
  else if d.month < 12 then ⟨d.year, d.month + 1, 1⟩
  else ⟨d.year + 1, 1, 1⟩

/-- Models `date + timedelta(days=k)` for `k ≥ 0`, on the calendar. -/
def Date.addDays (d : Date) : Nat → Date
  | 0 => d
  | k + 1 => (d.addDays k).succDay

/-- Models `date.replace(year=y)`: rebuilding the date with a new year
re-validates it, so 29 February of a leap year maps to `none` (a raised
`ValueError`) when `y` is not a leap year. -/
def Date.replaceYear (d : Date) (y : Nat) : Option Date :=
  let d2 : Date := ⟨y, d.month, d.day⟩
  if d2.valid then some d2 else none

/-- The decimal digit character for `k ≤ 9`. -/
def digitCh (k : Nat) : Char := Char.ofNat (48 + k)

/-- Two-digit zero-padded decimal rendering (for `%d` and `%m`). -/
def pad2Chars (n : Nat) : List Char := [digitCh (n / 10), digitCh (n % 10)]

/-- Four-digit zero-padded decimal rendering (for `%Y`). -/
def pad4Chars (n : Nat) : List Char :=
  [digitCh (n / 1000), digitCh (n / 100 % 10), digitCh (n / 10 % 10), digitCh (n % 10)]

/-- Character list of `strftime('%d.%m.%Y')`. -/
def Date.formatChars (d : Date) : List Char :=
  pad2Chars d.day ++ '.' :: pad2Chars d.month ++ '.' :: pad4Chars d.year

/-- Models `strftime('%d.%m.%Y')` (zero-padded fields, as documented for
Python's format codes). -/
def Date.format (d : Date) : String := String.mk d.formatChars

/-- Decimal value of a digit string (only applied to all-digit strings). -/
def decodeNat (cs : List Char) : Nat := cs.foldl (fun a c => 10 * a + (c.toNat - 48)) 0

/-- Consumes a literal dot at the head of the input. -/
def expectDot : List Char → Option (List Char)
  | [] => none
  | c :: rest => if c = '.' then some rest else none

/-- Models `datetime.strptime(value, '%d.%m.%Y')` on the character list:
one or two digits for the day, a dot, one or two digits for the month, a
dot, exactly four digits for the year, end of input; then the resulting
calendar date is validated by the `datetime` constructor.  `none` models a
raised `ValueError`. -/
def parseDMYChars (cs : List Char) : Option Date :=
  let s1 := cs.span Char.isDigit
  match expectDot s1.2 with
  | none => none
  | some rest1 =>
    let s2 := rest1.span Char.isDigit
    match expectDot s2.2 with
    | none => none
    | some rest2 =>
      let s3 := rest2.span Char.isDigit
      if s3.2 = [] then
        if 1 ≤ s1.1.length ∧ s1.1.length ≤ 2 ∧ 1 ≤ s2.1.length ∧ s2.1.length ≤ 2 ∧
            s3.1.length = 4 then
          let d : Date := ⟨decodeNat s3.1, decodeNat s2.1, decodeNat s1.1⟩
          if d.valid then some d else none
        else none
      else none

/-- Models `Birthday.__init__` (src/main.py lines 50-55): parse the string
with `strptime('%d.%m.%Y')`; `none` models the re-raised
`ValueError('Invalid date format. Use DD.MM.YYYY')`. -/
def makeBirthday (s : String) : Option Date := parseDMYChars s.data

/-- A `datetime`: calendar date plus seconds past midnight
(sub-day resolution suffices for this program's comparisons). -/
structure PyDateTime where
  date : Date
  secs : Nat
deriving DecidableEq

/-- Total seconds since the epoch of ordinal day 0, for `timedelta`
arithmetic. -/
def PyDateTime.toSecs (a : PyDateTime) : Int := (a.date.toOrdinal : Int) * 86400 + a.secs

/-- Models `datetime.__lt__`: lexicographic on (year, month, day, time). -/
def pyLt (a b : PyDateTime) : Bool :=
  decide (a.date.year < b.date.year ∨ (a.date.year = b.date.year ∧
    (a.date.month < b.date.month ∨ (a.date.month = b.date.month ∧
    (a.date.day < b.date.day ∨ (a.date.day = b.date.day ∧ a.secs < b.secs))))))

/-- Models `(a - b).days` on datetimes: `timedelta` normalises with floor
division, so the day count is the floor of the difference in seconds over
86400. -/
def tdDays (a b : PyDateTime) : Int := Int.fdiv (a.toSecs - b.toSecs) 86400

/-! ## Records (`Record`, src/main.py lines 87-123) -/

/-- One contact: the `Name` value, the list of `Phone` values (in insertion
order) and the optional `Birthday` date. -/
structure Record where
  name : String
  phones : List String
  birthday : Option Date
deriving DecidableEq

/-- Models `Record.add_phone`: `Phone(phone)` is evaluated before the
append, so on failure the record is returned untouched together with
`some msg`, which models the `CheckPhoneNumber` exception propagating to
the caller. -/
def Record.add_phone (r : Record) (phone : String) : Record × Option String :=
  match makePhone phone with
  | Except.ok v => ({ r with phones := r.phones ++ [v] }, none)
  | Except.error e => (r, some e)

/-- Models `Record.edit_phone`: validates the new value first; on failure
returns the record untouched and `some (str e)` — here the `some` component
models the string *returned* by the method (the exception is swallowed).
On success every phone equal to `old_phone` is overwritten in place and the
method returns `None`. -/
def Record.edit_phone (r : Record) (old_phone new_phone : String) : Record × Option String :=
  match makePhone new_phone with
  | Except.error e => (r, some e)
  | Except.ok v =>
      ({ r with phones := r.phones.map (fun p => if p = old_phone then v else p) }, none)

/-! ## Directory (`AddressBook`, src/main.py lines 139-148) -/

/-- The directory: the insertion-ordered `dict` underlying `UserDict`,
as a key-value list. -/
structure AddressBook where
  data : List (String × Record)
deriving DecidableEq

/-- Models Python dict assignment `d[k] = v`: if the key is present its
value is replaced in place (position kept), otherwise the pair is appended. -/
def dictInsert (l : List (String × Record)) (k : String) (v : Record) :
    List (String × Record) :=
  if l.any (fun p => p.1 == k) then l.map (fun p => if p.1 == k then (k, v) else p)
  else l ++ [(k, v)]

/-- Models `AddressBook.add_record`: `self.data[record.name.value] = record`. -/
def AddressBook.add_record (b : AddressBook) (r : Record) : AddressBook :=
  ⟨dictInsert b.data r.name r⟩

/-- The key sequence of a directory's underlying list. -/
def bookKeys (l : List (String × Record)) : List String := l.map Prod.fst

/-! ## Birthday scheduler (`BirthdayManager`, src/main.py lines 151-179) -/

/-- Models `BirthdayManager.find_next_weekday`. -/
def find_next_weekday (start_date : Date) (weekday : Nat) : Date :=
  let days_ahead : Int := (weekday : Int) - (start_date.weekday : Int)
  let days_ahead2 : Int := if days_ahead ≤ 0 then days_ahead + 7 else days_ahead
  start_date.addDays days_ahead2.toNat

/-- Models `BirthdayManager.adjust_for_weekend`. -/
def adjust_for_weekend (birthday : Date) : Date :=
  if birthday.weekday ≥ 5 then find_next_weekday birthday 0 else birthday

/-- One emitted dictionary `{"Contact": name, "upcoming birthday": ...}`. -/
structure UpcomingEntry where
  contact : String
  upcoming : String
deriving DecidableEq

/-- Loop body of `get_upcoming_birthdays` for one `(name, record)` item:
`none` models a `ValueError` raised by `replace`, `some []` a skipped
record, `some [entry]` an appended entry.  The stored birthday is a
midnight datetime, hence the `secs := 0` on its side of the comparisons. -/
def upcomingStep (today : PyDateTime) (days : Nat) (name : String) (r : Record) :
    Option (List UpcomingEntry) :=
  match r.birthday with
  | none => some []
  | some b =>
    match b.replaceYear today.date.year with
    | none => none
    | some t1 =>
      match (if pyLt ⟨t1, 0⟩ today then b.replaceYear (today.date.year + 1) else some t1) with
      | none => none
      | some t2 =>
        if 0 ≤ tdDays ⟨t2, 0⟩ today ∧ tdDays ⟨t2, 0⟩ today ≤ (days : Int) then
          some [⟨name, (adjust_for_weekend t2).format⟩]
        else some []

/-- Iteration of `get_upcoming_birthdays` over the directory items, in
order; a raised `ValueError` (`none`) aborts the whole call. -/
def upcomingLoop (today : PyDateTime) (days : Nat) :
    List (String × Record) → Option (List UpcomingEntry)
  | [] => some []
  | (n, r) :: rest =>
    match upcomingStep today days n r with
    | none => none
    | some es =>
      match upcomingLoop today days rest with
      | none => none
      | some tail => some (es ++ tail)

/-- Models `BirthdayManager.get_upcoming_birthdays(address_book, days)`,
with `datetime.today()` made explicit as the `today` parameter;
`none` models the `ValueError` raised out of the method. -/
def get_upcoming_birthdays (book : AddressBook) (today : PyDateTime) (days : Nat) :
    Option (List UpcomingEntry) :=
  upcomingLoop today days book.data

/-! ## Helper lemmas -/

/-- The two `CheckPhoneNumber` messages differ (their lengths differ). -/
theorem phone_msgs_ne (s : String) : phoneNotDigitMsg s ≠ phoneWrongLenMsg s := by
  intro h
  have h2 := congrArg String.length h
  simp only [phoneNotDigitMsg, phoneWrongLenMsg, String.length_append] at h2
  have e1 : " is not digit".length = 13 := rfl
  have e2 : " > 10 digits".length = 12 := rfl
  rw [e1, e2] at h2
  omega

/-- When validation succeeds, `Phone.__init__` stores the given value. -/
theorem makePhone_ok_eq (s : String) (h : (makePhone s).isOk = true) :
    makePhone s = Except.ok s := by
  by_cases hd : pyIsdigit s
  · by_cases h3 : s.length = 10
    · simp [makePhone, hd, h3]
    · simp [makePhone, hd, h3, Except.isOk, Except.toBool] at h
  · simp [makePhone, hd, Except.isOk, Except.toBool] at h

/-! ## Claim theorems: phone validation and record phone operations -/

/-- C3: `makePhone s` (the `Phone` constructor) succeeds iff `s` is exactly
10 characters long and every character is a decimal digit; otherwise it
fails with a `CheckPhoneNumber` error. -/
theorem makePhone_ok_iff (s : String) :
    (makePhone s).isOk = true ↔ (s.length = 10 ∧ s.data.all Char.isDigit = true) := by
  have hlen : s.length = s.data.length := rfl
  by_cases h1 : s.data.isEmpty
  · have hnil : s.data = [] := List.isEmpty_iff.mp h1
    simp [makePhone, pyIsdigit, h1, hlen, hnil, Except.isOk, Except.toBool]
  · by_cases h2 : s.data.all Char.isDigit
    · by_cases h3 : s.length = 10
      · simp [makePhone, pyIsdigit, h1, h2, h3, Except.isOk, Except.toBool]
      · simp [makePhone, pyIsdigit, h1, h2, h3, Except.isOk, Except.toBool]
    · simp [makePhone, pyIsdigit, h1, h2, Except.isOk, Except.toBool]

/-- C3 witness: a ten-digit string is accepted. -/
theorem makePhone_ok_iff_witness : (makePhone "0123456789").isOk = true :=
  (makePhone_ok_iff "0123456789").mpr (by decide)

/-- C4 counterexample: the empty string contains no non-digit character, yet
`makePhone ""` fails with the digit error, not with the length error claimed
for it (Python's `''.isdigit()` is false). -/
theorem makePhone_empty_digit_error :
    makePhone "" = Except.error (phoneNotDigitMsg "") ∧
    makePhone "" ≠ Except.error (phoneWrongLenMsg "") ∧
    "".data.all Char.isDigit = true := by
  refine ⟨rfl, ?_, rfl⟩
  intro h
  have h2 : (Except.error (phoneNotDigitMsg "") : Except String String) =
      Except.error (phoneWrongLenMsg "") := h
  injection h2 with h3
  exact phone_msgs_ne "" h3

/-- C4 (amended): for every rejected string the digit check runs first and
fails exactly when `value.isdigit()` is false, i.e. when the string is empty
or some character is a non-digit; otherwise the failure is the length error,
exactly when the string is a non-empty all-digit string of length ≠ 10. -/
theorem makePhone_error_cases (s : String) (h : (makePhone s).isOk = false) :
    (makePhone s = Except.error (phoneNotDigitMsg s) ↔
      (s.data = [] ∨ ∃ c ∈ s.data, c.isDigit = false)) ∧
    (makePhone s = Except.error (phoneWrongLenMsg s) ↔
      (s.data ≠ [] ∧ (∀ c ∈ s.data, c.isDigit = true) ∧ s.length ≠ 10)) := by
  by_cases hd : pyIsdigit s
  · have hne : s.data ≠ [] ∧ ∀ c ∈ s.data, c.isDigit = true := by
      simpa [pyIsdigit, List.isEmpty_iff, List.all_eq_true] using hd
    by_cases h3 : s.length = 10
    · exfalso
      simp [makePhone, hd, h3, Except.isOk, Except.toBool] at h
    · have heq : makePhone s = Except.error (phoneWrongLenMsg s) := by
        simp [makePhone, hd, h3]
      rw [heq]
      constructor
      · constructor
        · intro hl
          exfalso
          injection hl with h4
          exact phone_msgs_ne s h4.symm
        · rintro (hnil | ⟨c, hc, hcd⟩)
          · exact absurd hnil hne.1
          · have := hne.2 c hc
            rw [this] at hcd
            cases hcd
      · exact ⟨fun _ => ⟨hne.1, hne.2, h3⟩, fun _ => rfl⟩
  · have hcond : s.data = [] ∨ ∃ c ∈ s.data, c.isDigit = false := by
      by_cases h1 : s.data = []
      · exact Or.inl h1
      · right
        by_contra hno
        push_neg at hno
        apply hd
        simp only [pyIsdigit, Bool.and_eq_true, Bool.not_eq_true', List.all_eq_true]
        constructor
        · simpa [List.isEmpty_iff] using h1
        · intro c hc
          have := hno c hc
          revert this
          cases c.isDigit <;> simp
    have heq : makePhone s = Except.error (phoneNotDigitMsg s) := by
      simp [makePhone, hd]
    rw [heq]
    constructor
    · exact ⟨fun _ => hcond, fun _ => rfl⟩
    · constructor
      · intro hl
        exfalso
        injection hl with h4
        exact phone_msgs_ne s h4
      · rintro ⟨hne2, hall, -⟩
        exfalso
        rcases hcond with hnil | ⟨c, hc, hcd⟩
        · exact hne2 hnil
        · have := hall c hc
          rw [this] at hcd
          cases hcd

/-- C4 witness: a five-digit string fails with the length error. -/
theorem makePhone_error_cases_witness :
    makePhone "12345" = Except.error (phoneWrongLenMsg "12345") :=
  (makePhone_error_cases "12345" rfl).2.mpr (by decide)

/-- C6: when the new phone fails validation, `edit_phone` leaves the record
(including its phone list) exactly as it was, does not raise, and returns
the validation message as a string. -/
theorem edit_phone_invalid (r : Record) (oldp newp e : String)
    (h : makePhone newp = Except.error e) :
    Record.edit_phone r oldp newp = (r, some e) := by
  simp [Record.edit_phone, h]

/-- C6 witness: editing to the short string "123" keeps the list and returns
the length-error message. -/
theorem edit_phone_invalid_witness :
    Record.edit_phone ⟨"Bob", ["1234567890"], none⟩ "1234567890" "123" =
      (⟨"Bob", ["1234567890"], none⟩, some (phoneWrongLenMsg "123")) :=
  edit_phone_invalid ⟨"Bob", ["1234567890"], none⟩ "1234567890" "123"
    (phoneWrongLenMsg "123") rfl

/-- C7: when the new phone passes validation, `edit_phone` returns `None`,
keeps the name and birthday, and replaces in place (preserving each
position) the value of exactly those phone entries equal to the old value. -/
theorem edit_phone_valid (r : Record) (oldp newp : String)
    (h : (makePhone newp).isOk = true) :
    (Record.edit_phone r oldp newp).2 = none ∧
    (Record.edit_phone r oldp newp).1.name = r.name ∧
    (Record.edit_phone r oldp newp).1.birthday = r.birthday ∧
    (Record.edit_phone r oldp newp).1.phones.length = r.phones.length ∧
    ∀ i : Nat, (Record.edit_phone r oldp newp).1.phones[i]? =
      Option.map (fun p => if p = oldp then newp else p) r.phones[i]? := by
  have he := makePhone_ok_eq newp h
  simp [Record.edit_phone, he, List.getElem?_map]

/-- C7 witness: a matching entry is replaced and the method returns `None`. -/
theorem edit_phone_valid_witness :
    (Record.edit_phone ⟨"Bob", ["1234567890", "5550001111"], none⟩
      "1234567890" "0000000000").2 = none :=
  (edit_phone_valid ⟨"Bob", ["1234567890", "5550001111"], none⟩
    "1234567890" "0000000000" rfl).1

/-- C10: when the phone fails validation, `add_phone` raises the validation
error (`Phone(phone)` is evaluated before the append) and leaves the record
entirely unchanged. -/
theorem add_phone_invalid (r : Record) (s e : String)
    (h : makePhone s = Except.error e) :
    Record.add_phone r s = (r, some e) := by
  simp [Record.add_phone, h]

/-- C10 witness: adding "12ab" raises the digit error and keeps the record. -/
theorem add_phone_invalid_witness :
    Record.add_phone ⟨"Ann", [], none⟩ "12ab" =
      (⟨"Ann", [], none⟩, some (phoneNotDigitMsg "12ab")) :=
  add_phone_invalid ⟨"Ann", [], none⟩ "12ab" (phoneNotDigitMsg "12ab") rfl

/-! ## Claim theorems: directory overwrite -/

/-- Updating a list whose keys avoid `k` leaves nothing keyed `k`. -/
theorem filter_map_update_of_not_mem (rest : List (String × Record)) (k : String) (v : Record)
    (h : k ∉ bookKeys rest) :
    (rest.map (fun p => if p.1 == k then (k, v) else p)).filter (fun p => p.1 == k) = [] := by
  induction rest with
  | nil => rfl
  | cons q t ih =>
    have h' : ¬(k = q.1) ∧ k ∉ bookKeys t := by
      simpa [bookKeys, not_or] using h
    have hq : (q.1 == k) = false := by
      simp only [beq_eq_false_iff_ne, ne_eq]
      exact fun he => h'.1 he.symm
    simp only [List.map_cons, hq, Bool.false_eq_true, if_false]
    rw [List.filter_cons_of_neg (by simp [hq])]
    exact ih h'.2

/-- Python dict assignment leaves exactly one entry under the assigned key
when the starting keys are unique. -/
theorem filter_dictInsert (l : List (String × Record)) (k : String) (v : Record)
    (h : (bookKeys l).Nodup) :
    (dictInsert l k v).filter (fun p => p.1 == k) = [(k, v)] := by
  induction l with
  | nil => simp [dictInsert]
  | cons p rest ih =>
    have hk : p.1 ∉ bookKeys rest ∧ (bookKeys rest).Nodup := by
      simpa [bookKeys] using h
    by_cases hpk : p.1 = k
    · have hb : (p.1 == k) = true := by simp [hpk]
      have hany : (p :: rest).any (fun p => p.1 == k) = true := by
        simp [List.any_cons, hb]
      rw [dictInsert, if_pos hany, List.map_cons]
      simp only [hb, if_true]
      rw [List.filter_cons_of_pos (by simp)]
      have htail : (rest.map (fun p => if p.1 == k then (k, v) else p)).filter
          (fun p => p.1 == k) = [] :=
        filter_map_update_of_not_mem rest k v (hpk ▸ hk.1)
      rw [htail]
    · have hb : (p.1 == k) = false := by
        simp only [beq_eq_false_iff_ne, ne_eq]
        exact hpk
      rw [dictInsert]
      by_cases hany : rest.any (fun p => p.1 == k) = true
      · have hany2 : (p :: rest).any (fun p => p.1 == k) = true := by
          simp [List.any_cons, hany]
        rw [if_pos hany2, List.map_cons]
        simp only [hb, Bool.false_eq_true, if_false]
        rw [List.filter_cons_of_neg (by simp [hb])]
        have := ih hk.2
        rw [dictInsert, if_pos hany] at this
        exact this
      · have hany2 : ¬((p :: rest).any (fun p => p.1 == k) = true) := by
          simp only [List.any_cons, Bool.or_eq_true, hb, Bool.false_eq_true, false_or]
          exact hany
        rw [if_neg hany2, List.cons_append]
        rw [List.filter_cons_of_neg (by simp [hb])]
        have := ih hk.2
        rw [dictInsert, if_neg hany] at this
        exact this

/-- Python dict assignment keeps the keys unique. -/
theorem keys_dictInsert_nodup (l : List (String × Record)) (k : String) (v : Record)
    (h : (bookKeys l).Nodup) : (bookKeys (dictInsert l k v)).Nodup := by
  rw [dictInsert]
  by_cases hany : l.any (fun p => p.1 == k) = true
  · rw [if_pos hany]
    have hkeys : bookKeys (l.map (fun p => if p.1 == k then (k, v) else p)) = bookKeys l := by
      simp only [bookKeys, List.map_map]
      apply List.map_congr_left
      intro p _
      by_cases hp : (p.1 == k) = true
      · simp only [Function.comp_apply, hp, if_true]
        exact (beq_iff_eq.mp hp).symm
      · simp [Function.comp, hp]
    rw [hkeys]
    exact h
  · rw [if_neg hany]
    have hknot : k ∉ bookKeys l := by
      intro hmem
      apply hany
      simp only [bookKeys, List.mem_map] at hmem
      obtain ⟨p, hp, hpe⟩ := hmem
      exact List.any_eq_true.mpr ⟨p, hp, by simp [hpe]⟩
    have : bookKeys (l ++ [(k, v)]) = bookKeys l ++ [k] := by
      simp [bookKeys]
    rw [this, List.nodup_append]
    refine ⟨h, List.nodup_singleton k, ?_⟩
    intro a ha hb
    rw [List.mem_singleton.mp hb] at ha
    exact hknot ha

/-- C8: `add_record` inserts or overwrites under the record's name: adding
two records with the same name leaves exactly one entry for that name, and
it holds the second record (no merge). -/
theorem add_record_overwrite (b : AddressBook) (r1 r2 : Record)
    (hnd : (bookKeys b.data).Nodup) (hname : r1.name = r2.name) :
    ((b.add_record r1).add_record r2).data.filter (fun p => p.1 == r1.name) =
      [(r1.name, r2)] := by
  rw [hname]
  show (dictInsert (dictInsert b.data r1.name r1) r2.name r2).filter
      (fun p => p.1 == r2.name) = [(r2.name, r2)]
  exact filter_dictInsert _ _ _ (keys_dictInsert_nodup b.data r1.name r1 hnd)

/-- C8 witness: adding "Bob" twice keeps only the second record's data. -/
theorem add_record_overwrite_witness :
    ((AddressBook.add_record (AddressBook.add_record ⟨[]⟩ ⟨"Bob", ["1111111111"], none⟩)
      ⟨"Bob", ["2222222222"], none⟩).data.filter (fun p => p.1 == "Bob")) =
      [("Bob", ⟨"Bob", ["2222222222"], none⟩)] :=
  add_record_overwrite ⟨[]⟩ ⟨"Bob", ["1111111111"], none⟩ ⟨"Bob", ["2222222222"], none⟩
    (by decide) rfl

/-! ## Calendar arithmetic lemmas -/

/-- Unpacking of date validity. -/
theorem valid_iff (d : Date) : d.valid = true ↔
    (1 ≤ d.year ∧ 1 ≤ d.month ∧ d.month ≤ 12 ∧ 1 ≤ d.day ∧
      d.day ≤ daysInMonth d.year d.month) := by
  simp [Date.valid]

theorem daysInMonth_le31 (y m : Nat) : daysInMonth y m ≤ 31 := by
  unfold daysInMonth
  split
  · split <;> omega
  · split <;> omega

theorem daysInMonth_pos (y m : Nat) : 1 ≤ daysInMonth y m := by
  unfold daysInMonth
  split
  · split <;> omega
  · split <;> omega

theorem isLeap_iff (y : Nat) :
    isLeap y = true ↔ (y % 4 = 0 ∧ (y % 100 ≠ 0 ∨ y % 400 = 0)) := by
  simp [isLeap]

theorem daysBeforeMonth_succ (y m : Nat) (h : 1 ≤ m) :
    daysBeforeMonth y (m + 1) = daysBeforeMonth y m + daysInMonth y m := by
  obtain ⟨k, rfl⟩ : ∃ k, m = k + 1 := ⟨m - 1, by omega⟩
  unfold daysBeforeMonth
  simp only [Nat.add_sub_cancel]
  rw [List.range_succ, List.map_append, List.sum_append]
  simp

theorem daysBeforeMonth_twelve (y : Nat) :
    daysBeforeMonth y 12 = if isLeap y then 335 else 334 := by
  have hr : List.range 11 = [0, 1, 2, 3, 4, 5, 6, 7, 8, 9, 10] := rfl
  cases hl : isLeap y <;> simp [daysBeforeMonth, hr, daysInMonth, hl]

/-- Validity of a literal date. -/
theorem valid_mk (y m day : Nat) : (Date.mk y m day).valid = true ↔
    (1 ≤ y ∧ 1 ≤ m ∧ m ≤ 12 ∧ 1 ≤ day ∧ day ≤ daysInMonth y m) :=
  valid_iff (Date.mk y m day)

set_option maxHeartbeats 1000000 in
/-- Moving to the next calendar day advances the ordinal by one. -/
theorem toOrdinal_succDay (d : Date) (h : d.valid = true) :
    d.succDay.toOrdinal = d.toOrdinal + 1 := by
  obtain ⟨hy, hm1, hm2, hd1, hd2⟩ := (valid_iff d).mp h
  unfold Date.succDay
  by_cases hlt : d.day < daysInMonth d.year d.month
  · rw [if_pos hlt]
    unfold Date.toOrdinal
    simp only
    omega
  · rw [if_neg hlt]
    have hde : d.day = daysInMonth d.year d.month := by omega
    by_cases hm : d.month < 12
    · rw [if_pos hm]
      unfold Date.toOrdinal
      simp only
      rw [daysBeforeMonth_succ d.year d.month hm1]
      omega
    · rw [if_neg hm]
      have hm12 : d.month = 12 := by omega
      unfold Date.toOrdinal
      simp only
      have h0 : daysBeforeMonth (d.year + 1) 1 = 0 := by simp [daysBeforeMonth]
      have h12 := daysBeforeMonth_twelve d.year
      have hdim : daysInMonth d.year 12 = 31 := by norm_num [daysInMonth]
      rw [h0, hm12, h12, hde, hm12, hdim]
      by_cases hl : isLeap d.year = true
      · rw [if_pos hl]
        have hfacts := (isLeap_iff d.year).mp hl
        omega
      · rw [if_neg hl]
        have hfacts : ¬(d.year % 4 = 0 ∧ (d.year % 100 ≠ 0 ∨ d.year % 400 = 0)) :=
          fun hc => hl ((isLeap_iff d.year).mpr hc)
        omega

/-- Moving to the next calendar day preserves validity. -/
theorem valid_succDay (d : Date) (h : d.valid = true) : d.succDay.valid = true := by
  obtain ⟨hy, hm1, hm2, hd1, hd2⟩ := (valid_iff d).mp h
  unfold Date.succDay
  by_cases hlt : d.day < daysInMonth d.year d.month
  · rw [if_pos hlt]
    exact (valid_mk _ _ _).mpr ⟨hy, hm1, hm2, by omega, by omega⟩
  · rw [if_neg hlt]
    by_cases hm : d.month < 12
    · rw [if_pos hm]
      exact (valid_mk _ _ _).mpr ⟨hy, by omega, by omega, by omega,
        daysInMonth_pos d.year (d.month + 1)⟩
    · rw [if_neg hm]
      exact (valid_mk _ _ _).mpr ⟨by omega, by omega, by omega, by omega,
        daysInMonth_pos (d.year + 1) 1⟩

/-! ## Claim theorem: weekend adjustment -/

/-- C9: `adjust_for_weekend` leaves Monday-Friday dates unchanged and moves
every Saturday or Sunday date forward to the next Monday, a strictly later
date (Saturday advances by 2 days, Sunday by 1 day). -/
theorem adjust_for_weekend_spec (d : Date) (h : d.valid = true) :
    (d.weekday ≤ 4 → adjust_for_weekend d = d) ∧
    (d.weekday = 5 →
      adjust_for_weekend d = d.addDays 2 ∧
      (adjust_for_weekend d).toOrdinal = d.toOrdinal + 2 ∧
      (adjust_for_weekend d).weekday = 0 ∧
      d.toOrdinal < (adjust_for_weekend d).toOrdinal) ∧
    (d.weekday = 6 →
      adjust_for_weekend d = d.addDays 1 ∧
      (adjust_for_weekend d).toOrdinal = d.toOrdinal + 1 ∧
      (adjust_for_weekend d).weekday = 0 ∧
      d.toOrdinal < (adjust_for_weekend d).toOrdinal) := by
  refine ⟨?_, ?_, ?_⟩
  · intro h4
    rw [adjust_for_weekend, if_neg (by omega)]
  · intro h5
    have heq : adjust_for_weekend d = d.addDays 2 := by
      rw [adjust_for_weekend, if_pos (by omega), find_next_weekday, h5]
      norm_num
      rfl
    have ho2 : (d.addDays 2).toOrdinal = d.toOrdinal + 2 := by
      show d.succDay.succDay.toOrdinal = _
      rw [toOrdinal_succDay _ (valid_succDay d h), toOrdinal_succDay d h]
    have hw : (d.addDays 2).weekday = 0 := by
      rw [Date.weekday, ho2]
      have h6 : (d.toOrdinal + 6) % 7 = 5 := h5
      omega
    rw [heq]
    exact ⟨rfl, ho2, hw, by omega⟩
  · intro h6
    have heq : adjust_for_weekend d = d.addDays 1 := by
      rw [adjust_for_weekend, if_pos (by omega), find_next_weekday, h6]
      norm_num
    have ho1 : (d.addDays 1).toOrdinal = d.toOrdinal + 1 := by
      show d.succDay.toOrdinal = _
      rw [toOrdinal_succDay d h]
    have hw : (d.addDays 1).weekday = 0 := by
      rw [Date.weekday, ho1]
      have h7 : (d.toOrdinal + 6) % 7 = 6 := h6
      omega
    rw [heq]
    exact ⟨rfl, ho1, hw, by omega⟩

/-- C9 witness: 15.06.2024 is a Saturday and is moved to Monday 17.06.2024,
two days later. -/
theorem adjust_for_weekend_spec_witness :
    adjust_for_weekend ⟨2024, 6, 15⟩ = Date.addDays ⟨2024, 6, 15⟩ 2 ∧
    (adjust_for_weekend ⟨2024, 6, 15⟩).toOrdinal = Date.toOrdinal ⟨2024, 6, 15⟩ + 2 ∧
    (adjust_for_weekend ⟨2024, 6, 15⟩).weekday = 0 ∧
    Date.toOrdinal ⟨2024, 6, 15⟩ < (adjust_for_weekend ⟨2024, 6, 15⟩).toOrdinal :=
  (adjust_for_weekend_spec ⟨2024, 6, 15⟩ (by decide)).2.1 (by decide)

/-! ## Birthday parsing lemmas -/

theorem digitCh_isDigit (k : Nat) (h : k ≤ 9) : (digitCh k).isDigit = true := by
  interval_cases k <;> decide

theorem digitCh_toNat (k : Nat) (h : k ≤ 9) : (digitCh k).toNat = 48 + k := by
  interval_cases k <;> decide

theorem pad2Chars_length (n : Nat) : (pad2Chars n).length = 2 := rfl

theorem pad4Chars_length (n : Nat) : (pad4Chars n).length = 4 := rfl

theorem pad2_digits (n : Nat) (h : n ≤ 99) : ∀ c ∈ pad2Chars n, c.isDigit = true := by
  intro c hc
  simp only [pad2Chars, List.mem_cons, List.not_mem_nil, or_false] at hc
  rcases hc with rfl | rfl
  · exact digitCh_isDigit _ (by omega)
  · exact digitCh_isDigit _ (by omega)

theorem pad4_digits (n : Nat) (h : n ≤ 9999) : ∀ c ∈ pad4Chars n, c.isDigit = true := by
  intro c hc
  simp only [pad4Chars, List.mem_cons, List.not_mem_nil, or_false] at hc
  rcases hc with rfl | rfl | rfl | rfl
  · exact digitCh_isDigit _ (by omega)
  · exact digitCh_isDigit _ (by omega)
  · exact digitCh_isDigit _ (by omega)
  · exact digitCh_isDigit _ (by omega)

/-- Splitting a digit block followed by a dot. -/
theorem takeWhile_digits (xs ys : List Char) (hxs : ∀ c ∈ xs, c.isDigit = true) :
    (xs ++ '.' :: ys).takeWhile Char.isDigit = xs ∧
    (xs ++ '.' :: ys).dropWhile Char.isDigit = '.' :: ys := by
  induction xs with
  | nil =>
    constructor
    · simp [List.takeWhile_cons]
    · simp [List.dropWhile_cons]
  | cons c t ih =>
    have hc : c.isDigit = true := hxs c (List.mem_cons_self c t)
    have iht := ih (fun x hx => hxs x (List.mem_cons_of_mem c hx))
    constructor
    · simp [List.takeWhile_cons, hc, iht.1]
    · simp [List.dropWhile_cons, hc, iht.2]

theorem span_digits (xs ys : List Char) (hxs : ∀ c ∈ xs, c.isDigit = true) :
    (xs ++ '.' :: ys).span Char.isDigit = (xs, '.' :: ys) := by
  rw [List.span_eq_take_drop, (takeWhile_digits xs ys hxs).1, (takeWhile_digits xs ys hxs).2]

theorem span_digits_all (xs : List Char) (hxs : ∀ c ∈ xs, c.isDigit = true) :
    xs.span Char.isDigit = (xs, []) := by
  rw [List.span_eq_take_drop, List.takeWhile_eq_self_iff.mpr hxs,
    List.dropWhile_eq_nil_iff.mpr hxs]

theorem decodeNat_pad2 (n : Nat) (h : n ≤ 99) : decodeNat (pad2Chars n) = n := by
  simp only [decodeNat, pad2Chars, List.foldl_cons, List.foldl_nil]
  rw [digitCh_toNat (n / 10) (by omega), digitCh_toNat (n % 10) (by omega)]
  omega

theorem decodeNat_pad4 (n : Nat) (h : n ≤ 9999) : decodeNat (pad4Chars n) = n := by
  simp only [decodeNat, pad4Chars, List.foldl_cons, List.foldl_nil]
  rw [digitCh_toNat (n / 1000) (by omega), digitCh_toNat (n / 100 % 10) (by omega),
    digitCh_toNat (n / 10 % 10) (by omega), digitCh_toNat (n % 10) (by omega)]
  omega

/-! ## Claim theorem: birthday parse/format roundtrip -/

/-- C5: for every real calendar date, formatting it as `DD.MM.YYYY` and
parsing the result with `strptime('%d.%m.%Y')` succeeds and returns the same
date, so `format(parse(s)) = s` on every zero-padded `DD.MM.YYYY` string `s`
denoting a real date; in particular "29.02.2024" parses (leap year) and
"29.02.2023" fails. -/
theorem birthday_format_roundtrip (d : Date) (h : d.valid = true) (hy : d.year ≤ 9999) :
    makeBirthday d.format = some d ∧
    Option.map Date.format (makeBirthday d.format) = some d.format ∧
    makeBirthday "29.02.2024" = some ⟨2024, 2, 29⟩ ∧
    makeBirthday "29.02.2023" = none := by
  obtain ⟨hy1, hm1, hm2, hd1, hd2⟩ := (valid_iff d).mp h
  have hday : d.day ≤ 99 := le_trans hd2 (le_trans (daysInMonth_le31 _ _) (by omega))
  have hmon : d.month ≤ 99 := by omega
  have hfc : d.formatChars =
      pad2Chars d.day ++ ('.' :: (pad2Chars d.month ++ ('.' :: pad4Chars d.year))) := rfl
  have hall2d : ∀ c ∈ pad2Chars d.day, c.isDigit = true := pad2_digits d.day hday
  have hall2m : ∀ c ∈ pad2Chars d.month, c.isDigit = true := pad2_digits d.month hmon
  have hall4 : ∀ c ∈ pad4Chars d.year, c.isDigit = true := pad4_digits d.year hy
  have t1 := (takeWhile_digits (pad2Chars d.day)
    (pad2Chars d.month ++ ('.' :: pad4Chars d.year)) hall2d).1
  have w1 := (takeWhile_digits (pad2Chars d.day)
    (pad2Chars d.month ++ ('.' :: pad4Chars d.year)) hall2d).2
  have t2 := (takeWhile_digits (pad2Chars d.month) (pad4Chars d.year) hall2m).1
  have w2 := (takeWhile_digits (pad2Chars d.month) (pad4Chars d.year) hall2m).2
  have t3 : List.takeWhile Char.isDigit (pad4Chars d.year) = pad4Chars d.year :=
    List.takeWhile_eq_self_iff.mpr hall4
  have w3 : List.dropWhile Char.isDigit (pad4Chars d.year) = [] :=
    List.dropWhile_eq_nil_iff.mpr hall4
  have dc1 := decodeNat_pad2 d.day hday
  have dc2 := decodeNat_pad2 d.month hmon
  have dc3 := decodeNat_pad4 d.year hy
  have heta : Date.mk d.year d.month d.day = d := rfl
  have hmain : makeBirthday d.format = some d := by
    show parseDMYChars d.formatChars = some d
    rw [hfc]
    simp [parseDMYChars, List.span_eq_take_drop, t1, w1, t2, w2, t3, w3, expectDot,
      pad2Chars_length, pad4Chars_length, dc1, dc2, dc3, hall4, heta, h]
  refine ⟨hmain, ?_, by decide, by decide⟩
  rw [hmain]
  rfl

/-- C5 witness: the leap date 29.02.2024 round-trips. -/
theorem birthday_format_roundtrip_witness :
    makeBirthday (Date.format ⟨2024, 2, 29⟩) = some ⟨2024, 2, 29⟩ ∧
    Option.map Date.format (makeBirthday (Date.format ⟨2024, 2, 29⟩)) =
      some (Date.format ⟨2024, 2, 29⟩) ∧
    makeBirthday "29.02.2024" = some ⟨2024, 2, 29⟩ ∧
    makeBirthday "29.02.2023" = none :=
  birthday_format_roundtrip ⟨2024, 2, 29⟩ (by decide) (by decide)

/-! ## Claim theorems: upcoming-birthday scheduler -/

/-- C1: `get_upcoming_birthdays` is not total.  A storable (valid) birthday
of 29 February 2024 makes the call raise (modelled by `none`) whenever
today's year is not a leap year — here today is 01.06.2025 — because
`record.birthday.value.replace(year=today.year)` fails for that day. -/
theorem get_upcoming_birthdays_feb29_raises :
    (makeBirthday "29.02.2024").isSome = true ∧
    get_upcoming_birthdays ⟨[("Ann", ⟨"Ann", [], makeBirthday "29.02.2024"⟩)]⟩
      ⟨⟨2025, 6, 1⟩, 0⟩ 7 = none := by
  constructor
  · decide
  · decide

/-- C2: time-of-day is not ignored.  At 10:00 on the contact's own birthday
10.06 the record is excluded for window 7 (the midnight birthday datetime
compares less than the clock datetime, so the year rolls forward), while at
exactly midnight the same record is included with delta 0. -/
theorem get_upcoming_birthdays_today_excluded :
    get_upcoming_birthdays ⟨[("Ann", ⟨"Ann", [], makeBirthday "10.06.1990"⟩)]⟩
      ⟨⟨2024, 6, 10⟩, 36000⟩ 7 = some [] ∧
    get_upcoming_birthdays ⟨[("Ann", ⟨"Ann", [], makeBirthday "10.06.1990"⟩)]⟩
      ⟨⟨2024, 6, 10⟩, 0⟩ 7 = some [⟨"Ann", "10.06.2024"⟩] := by
  constructor
  · decide
  · decide

end HW
